import Mathlib

/-
Verification development for the soft-body falling-pieces simulation
(src/world.cpp, src/vec2.h, src/piece_pattern.h; rectangular-wall variant in
src/main.cpp).  Floating-point values are embedded as real numbers; float
sqrt becomes Real.sqrt, so length-dependent definitions are noncomputable.
Texture / uv / color data is rendering-only and is omitted from the model.
-/

open Classical

noncomputable section

/-- GRAVITY constant (world.cpp line 17). -/
def GRAVITY : ℝ := 1

/-- DAMPING constant (world.cpp line 18). -/
def DAMPING : ℝ := 0.75

/-- FRICTION constant (world.cpp line 19). -/
def FRICTION : ℝ := 0.6

/-- SPAWN_INTERVAL constant (world.cpp line 21); the spawn countdown is a C int. -/
def SPAWN_INTERVAL : Int := 30

/-- BLOCK_SIZE constant (world.cpp line 23). -/
def BLOCK_SIZE : Int := 20

/-- The epsilon used both by vec2::normalize (vec2.h) and by the separating
axis test (world.cpp line 194); both sources set it to 1e-5. -/
def EPSILON : ℝ := 1e-5

/-- 2D vector (src/vec2.h). -/
structure vec2 where
  x : ℝ
  y : ℝ

instance : Inhabited vec2 := ⟨⟨0, 0⟩⟩

/-- vec2::operator*(float s): componentwise scale. -/
def vec2.scale (v : vec2) (s : ℝ) : vec2 := ⟨v.x * s, v.y * s⟩

/-- vec2::operator+. -/
def vec2.add (a b : vec2) : vec2 := ⟨a.x + b.x, a.y + b.y⟩

/-- vec2::operator- (binary). -/
def vec2.sub (a b : vec2) : vec2 := ⟨a.x - b.x, a.y - b.y⟩

/-- vec2::operator- (unary). -/
def vec2.neg (a : vec2) : vec2 := ⟨-a.x, -a.y⟩

instance : Add vec2 := ⟨vec2.add⟩

instance : Sub vec2 := ⟨vec2.sub⟩

instance : Neg vec2 := ⟨vec2.neg⟩

instance : SMul ℝ vec2 := ⟨fun s v => v.scale s⟩

/-- vec2::dot. -/
def vec2.dot (a b : vec2) : ℝ := a.x * b.x + a.y * b.y

/-- vec2::length_squared. -/
def vec2.length_squared (a : vec2) : ℝ := a.x * a.x + a.y * a.y

/-- vec2::length = sqrtf(length_squared()). -/
def vec2.length (a : vec2) : ℝ := Real.sqrt a.length_squared

/-- vec2::normalize: scales to unit length unless the length is within
EPSILON of zero, in which case the vector is returned unchanged. -/
def vec2.normalize (a : vec2) : vec2 :=
  if |a.length| > EPSILON then (1 / a.length) • a else a

@[ext] theorem vec2.ext2 {a b : vec2} (hx : a.x = b.x) (hy : a.y = b.y) : a = b := by
  cases a; cases b; simp_all

@[simp] theorem vec2.add_x (a b : vec2) : (a + b).x = a.x + b.x := rfl

@[simp] theorem vec2.add_y (a b : vec2) : (a + b).y = a.y + b.y := rfl

@[simp] theorem vec2.sub_x (a b : vec2) : (a - b).x = a.x - b.x := rfl

@[simp] theorem vec2.sub_y (a b : vec2) : (a - b).y = a.y - b.y := rfl

@[simp] theorem vec2.neg_x (a : vec2) : (-a).x = -a.x := rfl

@[simp] theorem vec2.neg_y (a : vec2) : (-a).y = -a.y := rfl

@[simp] theorem vec2.smul_x (s : ℝ) (a : vec2) : (s • a).x = a.x * s := rfl

@[simp] theorem vec2.smul_y (s : ℝ) (a : vec2) : (s • a).y = a.y * s := rfl

/-- A point mass (world.cpp lines 25-36). -/
structure body where
  position : vec2
  prev_position : vec2

instance : Inhabited body := ⟨⟨⟨0, 0⟩, ⟨0, 0⟩⟩⟩

/-- body::update_position (world.cpp lines 159-165): Verlet step with
damping and downward gravity. -/
def body.update_position (b : body) : body :=
  let speed := DAMPING • (b.position - b.prev_position)
  { position := b.position + (speed + vec2.mk 0 (-GRAVITY)),
    prev_position := b.position }

/-
Quad / separating-axis collision (world.cpp lines 52-256).  In the source a
quad holds references to four body positions; quad_collision reads and
writes through those references.  Here the algorithm is given as a pure
function on the four corner values; the piece-level collide wires it back
to the owning bodies through indices.
-/

/-- The four corner positions of a quad, as values. -/
structure quad where
  p0 : vec2
  p1 : vec2
  p2 : vec2
  p3 : vec2

/-- project_quad_to_axis (world.cpp lines 171-183): interval of the dot
products of the four corners with dir. -/
def project_quad_to_axis (dir : vec2) (t : quad) : ℝ × ℝ :=
  let t0 := dir.dot t.p0
  let t1 := dir.dot t.p1
  let t2 := dir.dot t.p2
  let t3 := dir.dot t.p3
  (min t0 (min t1 (min t2 t3)), max t0 (max t1 (max t2 t3)))

/-- The un-normalized edge perpendicular vec2(-(to.y - from.y), to.x - from.x)
(world.cpp line 189). -/
def raw_normal (pfrom pto : vec2) : vec2 :=
  ⟨-(pto.y - pfrom.y), pto.x - pfrom.x⟩

/-- The candidate separating axis of one edge: the normalized perpendicular
(world.cpp line 189). -/
def axis_of_edge (pfrom pto : vec2) : vec2 :=
  (raw_normal pfrom pto).normalize

/-- The separation test of world.cpp line 196 on two projection intervals:
separated, allowing an EPSILON tolerance. -/
def sep_interval (s0 s1 : ℝ × ℝ) : Prop :=
  s0.2 < s1.1 + EPSILON ∨ s1.2 < s0.1 + EPSILON

/-- The axis a separates the projections of t0 and t1 (with tolerance). -/
def separated_on (a : vec2) (t0 t1 : quad) : Prop :=
  sep_interval (project_quad_to_axis a t0) (project_quad_to_axis a t1)

/-- quad_collision::separating_axis_test (world.cpp lines 185-216), with the
in-place push_vector_ state made explicit.  Returns none when the axis is
separating (the member returns true and operator() short-circuits false);
otherwise returns the updated push vector. -/
def separating_axis_test (first : Bool) (t0 t1 : quad) (push : vec2)
    (pfrom pto : vec2) : Option vec2 :=
  let normal := axis_of_edge pfrom pto
  let s0 := project_quad_to_axis normal t0
  let s1 := project_quad_to_axis normal t1
  if sep_interval s0 s1 then
    none
  else
    let np := if s0.2 - s1.1 < s1.2 - s0.1 then (normal, s0.2 - s1.1)
              else (-normal, s1.2 - s0.1)
    let push_length := np.2 * (0.5 * FRICTION)
    if first = true ∨ push_length * push_length < push.length_squared then
      some (np.1.scale (push_length / np.1.length))
    else
      some push

/-- The four directed edges of one quad, in the corner order used by
quad_collision::operator(). -/
def quad_edge_list (t : quad) : List (vec2 × vec2) :=
  [(t.p0, t.p1), (t.p1, t.p2), (t.p2, t.p3), (t.p3, t.p0)]

/-- The eight directed edges tested by quad_collision::operator(), in source
order (world.cpp lines 221-243): the four edges of t0, then the four of t1. -/
def quad_edges (t0 t1 : quad) : List (vec2 × vec2) :=
  quad_edge_list t0 ++ quad_edge_list t1

/-- The eight candidate separating axes, in test order. -/
def candidate_axes (t0 t1 : quad) : List vec2 :=
  (quad_edges t0 t1).map (fun e => axis_of_edge e.1 e.2)

/-- The short-circuiting scan of quad_collision::operator() over a list of
edges, threading the push vector; the first tested edge runs with
First = true.  none means some axis separated. -/
def sat_scan (t0 t1 : quad) : Bool → vec2 → List (vec2 × vec2) → Option vec2
  | _, push, [] => some push
  | first, push, e :: rest =>
    match separating_axis_test first t0 t1 push e.1 e.2 with
    | none => none
    | some push2 => sat_scan t0 t1 false push2 rest

/-- The axis scan of quad_collision::operator(): the eight tests of world.cpp
lines 221-243, started with First = true and a default-constructed (0,0)
push vector. -/
def quad_collision_scan (t0 t1 : quad) : Option vec2 :=
  sat_scan t0 t1 true ⟨0, 0⟩ (quad_edges t0 t1)

/-- quad_collision::operator() (world.cpp lines 218-256): false when some
axis separates; on overlap, moves every corner of t0 by -push_vector and
every corner of t1 by +push_vector, and returns true. -/
def quad_intersection (t0 t1 : quad) : Bool × quad × quad :=
  match quad_collision_scan t0 t1 with
  | none => (false, t0, t1)
  | some pv =>
    (true,
     ⟨t0.p0 - pv, t0.p1 - pv, t0.p2 - pv, t0.p3 - pv⟩,
     ⟨t1.p0 + pv, t1.p1 + pv, t1.p2 + pv, t1.p3 + pv⟩)

/-
Piece model (world.cpp lines 90-113, 263-513).  In the source, springs and
quads hold references into the piece's bodies_ vector; here they hold
indices into the piece's bodies list, which preserves the mutate-in-place,
visible-to-all-referents semantics.  uv texture coordinates and color are
rendering-only and omitted.
-/

/-- spring (world.cpp lines 40-50): two endpoint references (as body
indices) plus the rest length captured at construction. -/
structure spring where
  i0 : Nat
  i1 : Nat
  rest_length : ℝ

/-- quad of a piece (world.cpp lines 52-65): four corner references, as
body indices. -/
structure quadref where
  i0 : Nat
  i1 : Nat
  i2 : Nat
  i3 : Nat

/-- piece (world.cpp lines 90-113): bodies, springs, quads and the cached
bounding box. -/
structure piece where
  bodies : List body
  springs : List spring
  quads : List quadref
  min_pos : vec2
  max_pos : vec2

instance : Inhabited piece := ⟨⟨[], [], [], ⟨0, 0⟩, ⟨0, 0⟩⟩⟩

/-- One step of the min/max accumulation in piece::update_bounding_box
(world.cpp lines 503-512). -/
def bbox_step (acc : vec2 × vec2) (b : body) : vec2 × vec2 :=
  (⟨min acc.1.x b.position.x, min acc.1.y b.position.y⟩,
   ⟨max acc.2.x b.position.x, max acc.2.y b.position.y⟩)

/-- piece::update_bounding_box (world.cpp lines 496-513): starts from the
first body's position and folds min/max over the rest.  The source asserts
a non-empty body list; the empty case (unreachable for catalog pieces) is
modelled as a no-op. -/
def piece.update_bounding_box (p : piece) : piece :=
  match p.bodies with
  | [] => p
  | b :: rest =>
    let mm := rest.foldl bbox_step (b.position, b.position)
    { p with min_pos := mm.1, max_pos := mm.2 }

/-- piece::update_positions (world.cpp lines 373-380). -/
def piece.update_positions (p : piece) : piece :=
  piece.update_bounding_box { p with bodies := p.bodies.map body.update_position }

/-- piece::move (world.cpp lines 427-434): shift every body and reset its
previous position (no bounding-box refresh here, as in the source). -/
def piece.move (p : piece) (v : vec2) : piece :=
  { p with bodies := p.bodies.map (fun b =>
      { position := b.position + v, prev_position := b.position + v }) }

/-- The spring relaxation formula of piece::check_constraints (world.cpp
lines 387-398) on a pair of endpoint positions: dir = p1 - p0, l = |dir|,
f = 0.5*(l - rest)/l, new endpoints p0 + f*dir and p1 - f*dir.  The source
divides by l unguarded; this totalization uses the Lean convention x/0 = 0. -/
def relax_spring (p0 p1 : vec2) (rest : ℝ) : vec2 × vec2 :=
  let dir := p1 - p0
  let l := dir.length
  let f := 0.5 * (l - rest) / l
  (p0 + f • dir, p1 - f • dir)

/-- The same relaxation step as a fallible function: the division by l is
undefined when l = 0 (coincident endpoints), and the source has no guard or
special case on that path, so the l = 0 input lands in the error branch. -/
def relax_spring_checked (p0 p1 : vec2) (rest : ℝ) : Option (vec2 × vec2) :=
  let dir := p1 - p0
  let l := dir.length
  if l = 0 then none
  else
    let f := 0.5 * (l - rest) / l
    some (p0 + f • dir, p1 - f • dir)

/-- In-place application of one spring to the owning bodies list, exactly as
the reference writes of world.cpp lines 387-398 (p0 += f*dir first, then
p1 -= f*dir against the current contents). -/
def apply_spring (bodies : List body) (s : spring) : List body :=
  let p0 := (bodies.getD s.i0 default).position
  let p1 := (bodies.getD s.i1 default).position
  let dir := p1 - p0
  let l := dir.length
  let f := 0.5 * (l - s.rest_length) / l
  let bodies2 := bodies.set s.i0
    { bodies.getD s.i0 default with position := p0 + f • dir }
  bodies2.set s.i1
    { bodies2.getD s.i1 default with
        position := (bodies2.getD s.i1 default).position - f • dir }

/-- The body-wall pass of piece::check_constraints in the bowl variant
(world.cpp lines 400-422), on one body position.  Above the bowl center
line only the two vertical walls clamp x (sequentially, as in the source);
otherwise a body outside the bowl radius is pulled radially toward the bowl
center, each correction scaled by FRICTION. -/
def wall_clamp (width : Int) (p : vec2) : vec2 :=
  let bowl_radius := 0.5 * (width : ℝ)
  if p.y > bowl_radius then
    let x1 := if p.x < 0 then p.x + FRICTION * (-p.x) else p.x
    let x2 := if x1 > (width : ℝ) then x1 + FRICTION * ((width : ℝ) - x1) else x1
    ⟨x2, p.y⟩
  else
    let d := p - ⟨bowl_radius, bowl_radius⟩
    let r := d.length
    if r > bowl_radius then p - d.scale (FRICTION * (r - bowl_radius) / r) else p

/-- piece::check_constraints (world.cpp lines 382-425): relax every spring
in order, clamp every body against the container, then refresh the bounding
box.  height is accepted but unused, as in the bowl variant source. -/
def piece.check_constraints (p : piece) (width height : Int) : piece :=
  let bodies1 := p.springs.foldl apply_spring p.bodies
  let bodies2 := bodies1.map (fun b => { b with position := wall_clamp width b.position })
  piece.update_bounding_box { p with bodies := bodies2 }

/-- Read the current corner values of a quad from its owning bodies. -/
def quad_corners (bodies : List body) (q : quadref) : quad :=
  ⟨(bodies.getD q.i0 default).position, (bodies.getD q.i1 default).position,
   (bodies.getD q.i2 default).position, (bodies.getD q.i3 default).position⟩

/-- In-place update of one referenced corner position. -/
def set_position (bodies : List body) (i : Nat) (v : vec2) : List body :=
  bodies.set i { bodies.getD i default with position := v }

/-- Sequentially subtract pv from one referenced position (t.p0 -= pv of
world.cpp lines 245-248). -/
def sub_at (bodies : List body) (i : Nat) (pv : vec2) : List body :=
  set_position bodies i ((bodies.getD i default).position - pv)

/-- Sequentially add pv to one referenced position (t.p0 += pv of world.cpp
lines 250-253). -/
def add_at (bodies : List body) (i : Nat) (pv : vec2) : List body :=
  set_position bodies i ((bodies.getD i default).position + pv)

/-- Apply the push writes of quad_collision::operator() to the four corners
of a quad, through its body references. -/
def quad_sub_push (bodies : List body) (q : quadref) (pv : vec2) : List body :=
  sub_at (sub_at (sub_at (sub_at bodies q.i0 pv) q.i1 pv) q.i2 pv) q.i3 pv

def quad_add_push (bodies : List body) (q : quadref) (pv : vec2) : List body :=
  add_at (add_at (add_at (add_at bodies q.i0 pv) q.i1 pv) q.i2 pv) q.i3 pv

/-- One quad_collision(q0, q1)() call inside piece::collide (world.cpp line
459), acting on the two owning body lists; the Bool is the collided flag. -/
def collide_quads (ab : List body × List body) (q0 q1 : quadref) :
    (List body × List body) × Bool :=
  let t0 := quad_corners ab.1 q0
  let t1 := quad_corners ab.2 q1
  match quad_collision_scan t0 t1 with
  | none => (ab, false)
  | some pv => ((quad_sub_push ab.1 q0 pv, quad_add_push ab.2 q1 pv), true)

/-- piece::collide (world.cpp lines 436-468): bounding-box broad phase,
then every quad of this piece against every quad of the other, refreshing
both bounding boxes only when some pair collided. -/
def piece.collide (a b : piece) : piece × piece :=
  if a.max_pos.x < b.min_pos.x then (a, b)
  else if b.max_pos.x < a.min_pos.x then (a, b)
  else if a.max_pos.y < b.min_pos.y then (a, b)
  else if b.max_pos.y < a.min_pos.y then (a, b)
  else
    let st := a.quads.foldl (fun st q0 =>
      b.quads.foldl (fun st2 q1 =>
        let r := collide_quads st2.1 q0 q1
        (r.1, st2.2 || r.2)) st) ((a.bodies, b.bodies), false)
    let a2 := { a with bodies := st.1.1 }
    let b2 := { b with bodies := st.1.2 }
    if st.2 then (a2.update_bounding_box, b2.update_bounding_box) else (a2, b2)

/-
Piece construction from a pattern (world.cpp lines 263-344) and the pattern
catalog (world.cpp lines 526-574).  A pattern is the 4x4 grid of filled
cells; MAX_PIECE_ROWS = MAX_PIECE_COLS = 4 (piece_pattern.h).
-/

/-- Intermediate constructor state: bodies built so far, the (row, col) to
body-index map, springs with their pointer-identity dedup set, and quads. -/
structure build_state where
  bodies : List body
  body_map : List ((Nat × Nat) × Nat)
  springs : List spring
  spring_set : List (Nat × Nat)
  quads : List quadref

/-- The add_body lambda (world.cpp lines 278-287): reuse the body at grid
node (i, j) if present, else append a body at (j*BLOCK_SIZE, i*BLOCK_SIZE). -/
def add_body (st : build_state) (i j : Nat) : build_state × Nat :=
  match st.body_map.lookup (i, j) with
  | some k => (st, k)
  | none =>
    let k := st.bodies.length
    let pos : vec2 := ⟨(j : ℝ) * (BLOCK_SIZE : ℝ), (i : ℝ) * (BLOCK_SIZE : ℝ)⟩
    ({ st with bodies := st.bodies ++ [⟨pos, pos⟩],
               body_map := st.body_map ++ [((i, j), k)] }, k)

/-- The add_spring lambda (world.cpp lines 289-298): skip if this endpoint
pair was already added in either order, else append a spring whose rest
length is the current distance of the endpoints. -/
def add_spring (st : build_state) (a b : Nat) : build_state :=
  if (a, b) ∈ st.spring_set ∨ (b, a) ∈ st.spring_set then st
  else
    let pa := (st.bodies.getD a default).position
    let pb := (st.bodies.getD b default).position
    { st with springs := st.springs ++ [⟨a, b, (pa - pb).length⟩],
              spring_set := st.spring_set ++ [(a, b)] }

/-- The per-filled-cell work of the constructor loop (world.cpp lines
305-338): four corner bodies, six springs (edges plus both diagonals), one
quad. -/
def add_cell (st : build_state) (i j : Nat) : build_state :=
  let r0 := add_body st i j
  let r1 := add_body r0.1 i (j + 1)
  let r2 := add_body r1.1 (i + 1) (j + 1)
  let r3 := add_body r2.1 (i + 1) j
  let b0 := r0.2
  let b1 := r1.2
  let b2 := r2.2
  let b3 := r3.2
  let s1 := add_spring r3.1 b0 b1
  let s2 := add_spring s1 b1 b2
  let s3 := add_spring s2 b2 b3
  let s4 := add_spring s3 b3 b0
  let s5 := add_spring s4 b0 b2
  let s6 := add_spring s5 b1 b3
  { s6 with quads := s6.quads ++ [⟨b0, b1, b2, b3⟩] }

/-- piece::piece(const piece_pattern&): scan the 4x4 grid in row-major
order, add a cell for each filled entry, then compute the bounding box. -/
def piece_of_pattern (pat : List (List Bool)) : piece :=
  let st := (List.range 4).foldl (fun st i =>
    (List.range 4).foldl (fun st2 j =>
      if (pat.getD i []).getD j false then add_cell st2 i j else st2) st)
    ⟨[], [], [], [], []⟩
  piece.update_bounding_box
    { bodies := st.bodies, springs := st.springs, quads := st.quads,
      min_pos := ⟨0, 0⟩, max_pos := ⟨0, 0⟩ }

/-- The seven patterns of piece_factory::piece_factory (world.cpp lines
528-570); true marks a filled cell. -/
def pattern_catalog : List (List (List Bool)) :=
  [[[false, false, false, false], [false, true, true, false],
    [false, true, true, false], [false, false, false, false]],
   [[false, true, false, false], [false, true, false, false],
    [false, true, false, false], [false, true, false, false]],
   [[false, true, false, false], [false, true, false, false],
    [false, true, true, false], [false, false, false, false]],
   [[false, false, true, false], [false, false, true, false],
    [false, true, true, false], [false, false, false, false]],
   [[false, true, false, false], [false, true, true, false],
    [false, true, false, false], [false, false, false, false]],
   [[false, true, false, false], [false, true, true, false],
    [false, false, true, false], [false, false, false, false]],
   [[false, false, true, false], [false, true, true, false],
    [false, true, false, false], [false, false, false, false]]]

/-- The factory's prototype pieces (built once; the copy constructor's deep
copy of a prototype is value-identical to the prototype itself in this
index-based model). -/
def catalog : List piece := pattern_catalog.map piece_of_pattern

/-- piece_factory::make_piece (world.cpp lines 576-580). -/
def make_piece (t : Nat) : piece := catalog.getD t default

/-
World (world.cpp lines 134-152, 586-658).  rand() is modelled as an
arbitrary stream of naturals consumed left to right; the wall vertex array
is rendering-only and omitted.
-/

structure world_impl where
  pieces : List piece
  spawn_tic : Int
  width : Int
  height : Int
  rand_seq : Nat → Nat
  rand_idx : Nat

/-- world_impl::world_impl (world.cpp lines 586-589): no pieces, spawn
countdown at SPAWN_INTERVAL. -/
def world_new (width height : Int) (rand_seq : Nat → Nat) : world_impl :=
  ⟨[], SPAWN_INTERVAL, width, height, rand_seq, 0⟩

/-- The all-pairs collision loop of world_impl::update (world.cpp lines
643-645): for j < k, collide pieces j and k in place.  The loop bounds use
the piece count, which no collide call changes. -/
def collide_pair (ps : List piece) (j k : Nat) : List piece :=
  let r := piece.collide (ps.getD j default) (ps.getD k default)
  (ps.set j r.1).set k r.2

def collide_all (ps : List piece) : List piece :=
  (List.range (ps.length - 1)).foldl (fun ps2 j =>
    (List.range' (j + 1) (ps.length - (j + 1))).foldl
      (fun ps3 k => collide_pair ps3 j k) ps2) ps

/-- NUM_ITERATIONS (world.cpp line 637). -/
def NUM_ITERATIONS : Nat := 30

/-- world_impl::update (world.cpp lines 630-658): if pieces exist, integrate
all bodies then run NUM_ITERATIONS solver iterations (constraints for every
piece, then all-pairs collide); afterwards decrement the spawn countdown
and, when it hits zero, append one piece of a random type moved to a random
horizontal origin at height, resetting the countdown. -/
def world_update (w : world_impl) : world_impl :=
  let ps :=
    if w.pieces.isEmpty then w.pieces
    else
      let ps1 := w.pieces.map piece.update_positions
      (List.range NUM_ITERATIONS).foldl (fun ps2 _ =>
        collide_all (ps2.map (fun p => p.check_constraints w.width w.height))) ps1
  let tic := w.spawn_tic - 1
  if tic = 0 then
    let t := w.rand_seq w.rand_idx % catalog.length
    let rx := w.rand_seq (w.rand_idx + 1) % (w.width - BLOCK_SIZE * 4).toNat
    let np := (make_piece t).move ⟨(rx : ℝ), (w.height : ℝ)⟩
    { w with pieces := ps ++ [np], spawn_tic := SPAWN_INTERVAL,
             rand_idx := w.rand_idx + 2 }
  else
    { w with pieces := ps, spawn_tic := tic }

/-
Aliasing model for the copy constructor (world.cpp lines 346-371) and
piece_factory::make_piece (lines 576-580).  To state what the deep copy
protects against, bodies live in a single store addressed by id (the C++
heap), and a piece's springs/quads hold body ids.  The physics operations
write through those ids exactly where the C++ writes through its
references; the bounding-box cache and broad-phase early-out only restrict
which writes happen, so they are not modelled here.
-/

abbrev store := Nat → body

/-- Write one body cell of the store. -/
def writeb (s : store) (i : Nat) (b : body) : store :=
  fun j => if j = i then b else s j

/-- A piece whose springs and quads reference bodies by store id. -/
structure pieceH where
  body_ids : List Nat
  springs : List spring
  quads : List quadref

/-- piece::piece(const piece&): the bodies_ vector copy allocates fresh
bodies (ids base, base+1, ...) holding the prototype's body values, and
every spring and quad is rebound through the position-to-index map
pos_body (here: the index of the referenced id in the prototype's own body
list) to the copy's fresh ids. -/
def copy_piece_ids (p : pieceH) (base : Nat) : pieceH :=
  { body_ids := (List.range p.body_ids.length).map (fun n => base + n),
    springs := p.springs.map (fun sp =>
      ⟨base + p.body_ids.indexOf sp.i0, base + p.body_ids.indexOf sp.i1,
       sp.rest_length⟩),
    quads := p.quads.map (fun q =>
      ⟨base + p.body_ids.indexOf q.i0, base + p.body_ids.indexOf q.i1,
       base + p.body_ids.indexOf q.i2, base + p.body_ids.indexOf q.i3⟩) }

/-- The store side of the copy: the fresh cells receive the prototype's
current body values. -/
def copy_piece_store (s : store) (p : pieceH) (base : Nat) : store :=
  (List.range p.body_ids.length).foldl
    (fun s2 n => writeb s2 (base + n) (s (p.body_ids.getD n 0))) s

/-- piece::update_positions through the store. -/
def update_positions_h (s : store) (p : pieceH) : store :=
  p.body_ids.foldl (fun s2 i => writeb s2 i (body.update_position (s2 i))) s

/-- One spring relaxation through the store (world.cpp lines 387-398). -/
def apply_spring_h (s : store) (sp : spring) : store :=
  let p0 := (s sp.i0).position
  let p1 := (s sp.i1).position
  let dir := p1 - p0
  let l := dir.length
  let f := 0.5 * (l - sp.rest_length) / l
  let s2 := writeb s sp.i0 { s sp.i0 with position := p0 + f • dir }
  writeb s2 sp.i1 { s2 sp.i1 with position := (s2 sp.i1).position - f • dir }

/-- piece::check_constraints through the store: springs, then walls. -/
def check_constraints_h (s : store) (p : pieceH) (width : Int) : store :=
  let s1 := p.springs.foldl apply_spring_h s
  p.body_ids.foldl
    (fun s2 i => writeb s2 i { s2 i with position := wall_clamp width (s2 i).position }) s1

/-- piece::move through the store. -/
def move_h (s : store) (p : pieceH) (v : vec2) : store :=
  p.body_ids.foldl (fun s2 i =>
    writeb s2 i ⟨(s2 i).position + v, (s2 i).position + v⟩) s

/-- The corner reads of one quad through the store. -/
def quad_corners_h (s : store) (q : quadref) : quad :=
  ⟨(s q.i0).position, (s q.i1).position, (s q.i2).position, (s q.i3).position⟩

/-- One position update through the store. -/
def set_position_h (s : store) (i : Nat) (v : vec2) : store :=
  writeb s i { s i with position := v }

/-- The push writes of quad_collision::operator() through the store. -/
def push_quad_h (s : store) (q : quadref) (pv : vec2) (sign : ℝ) : store :=
  let s1 := set_position_h s q.i0 ((s q.i0).position + sign • pv)
  let s2 := set_position_h s1 q.i1 ((s1 q.i1).position + sign • pv)
  let s3 := set_position_h s2 q.i2 ((s2 q.i2).position + sign • pv)
  set_position_h s3 q.i3 ((s3 q.i3).position + sign • pv)

/-- One quad-vs-quad collision through the store. -/
def collide_quads_h (s : store) (q0 q1 : quadref) : store :=
  match quad_collision_scan (quad_corners_h s q0) (quad_corners_h s q1) with
  | none => s
  | some pv => push_quad_h (push_quad_h s q0 pv (-1)) q1 pv 1

/-- piece::collide's narrow phase through the store. -/
def collide_h (s : store) (a b : pieceH) : store :=
  a.quads.foldl (fun s2 q0 => b.quads.foldl (fun s3 q1 => collide_quads_h s3 q0 q1) s2) s

/-- One physics operation applied to spawned pieces. -/
inductive phys_op where
  | upd : pieceH → phys_op
  | constr : pieceH → Int → phys_op
  | mv : pieceH → vec2 → phys_op
  | coll : pieceH → pieceH → phys_op

def run_op (s : store) : phys_op → store
  | phys_op.upd p => update_positions_h s p
  | phys_op.constr p w => check_constraints_h s p w
  | phys_op.mv p v => move_h s p v
  | phys_op.coll a b => collide_h s a b

def run_ops (s : store) (ops : List phys_op) : store :=
  ops.foldl run_op s

/-- Every body id a piece can write through lies at or above base. -/
def piece_above (base : Nat) (p : pieceH) : Prop :=
  (∀ i ∈ p.body_ids, base ≤ i) ∧
  (∀ sp ∈ p.springs, base ≤ sp.i0 ∧ base ≤ sp.i1) ∧
  (∀ q ∈ p.quads, base ≤ q.i0 ∧ base ≤ q.i1 ∧ base ≤ q.i2 ∧ base ≤ q.i3)

/-- Every piece an operation touches lies at or above base. -/
def op_above (base : Nat) : phys_op → Prop
  | phys_op.upd p => piece_above base p
  | phys_op.constr p _ => piece_above base p
  | phys_op.mv p _ => piece_above base p
  | phys_op.coll a b => piece_above base a ∧ piece_above base b

/-
Specification-side definitions for the push-vector claim (stated from the
spec's words, to be compared with the source scan): per-axis candidate push
vector and greedy minimum over the eight axes.
-/

/-- The push candidate of one non-separating axis as the spec describes it:
push length is the smaller of the two interval-overlap depths, the axis
sign is flipped to point from quad0 toward quad1 as needed, and the result
is scaled by 0.5*FRICTION = 0.3. -/
def push_candidate (t0 t1 : quad) (a : vec2) : vec2 :=
  let s0 := project_quad_to_axis a t0
  let s1 := project_quad_to_axis a t1
  if s0.2 - s1.1 < s1.2 - s0.1 then ((s0.2 - s1.1) * (0.3 : ℝ)) • a
  else ((s1.2 - s0.1) * (0.3 : ℝ)) • (-a)

/-- The greedy minimum-translation candidate as the spec describes it: the
first axis initializes the candidate unconditionally, and each later axis
replaces it only when its squared push length is strictly smaller. -/
def min_push (t0 t1 : quad) : vec2 :=
  match candidate_axes t0 t1 with
  | [] => ⟨0, 0⟩
  | a :: rest =>
    rest.foldl (fun best a2 =>
      let c := push_candidate t0 t1 a2
      if c.length_squared < best.length_squared then c else best)
      (push_candidate t0 t1 a)

/-- Witness quads: two axis-aligned 20x20 squares, the second offset by
(10, 0), so they overlap by 10 on the x axis. -/
def qA : quad := ⟨⟨0, 0⟩, ⟨20, 0⟩, ⟨20, 20⟩, ⟨0, 20⟩⟩

def qB : quad := ⟨⟨10, 0⟩, ⟨30, 0⟩, ⟨30, 20⟩, ⟨10, 20⟩⟩

/-
Helper lemmas.
-/

theorem vec2.length_nonneg (v : vec2) : 0 ≤ v.length :=
  Real.sqrt_nonneg _

theorem vec2.length_squared_nonneg (v : vec2) : 0 ≤ v.length_squared :=
  add_nonneg (mul_self_nonneg _) (mul_self_nonneg _)

theorem vec2.length_mul_self (v : vec2) : v.length * v.length = v.length_squared :=
  Real.mul_self_sqrt v.length_squared_nonneg

theorem vec2.length_eq_zero_iff (v : vec2) : v.length = 0 ↔ v = ⟨0, 0⟩ := by
  unfold vec2.length
  rw [Real.sqrt_eq_zero v.length_squared_nonneg]
  unfold vec2.length_squared
  constructor
  · intro h
    have hx : v.x * v.x = 0 ∧ v.y * v.y = 0 :=
      (add_eq_zero_iff_of_nonneg (mul_self_nonneg _) (mul_self_nonneg _)).mp h
    ext
    · exact mul_self_eq_zero.mp hx.1
    · exact mul_self_eq_zero.mp hx.2
  · intro h
    rw [h]
    ring

theorem vec2.sub_eq_zero_iff (a b : vec2) : b - a = ⟨0, 0⟩ ↔ a = b := by
  constructor
  · intro h
    have hx := congrArg vec2.x h
    have hy := congrArg vec2.y h
    simp at hx hy
    ext
    · linarith
    · linarith
  · intro h
    rw [h]
    ext <;> simp

theorem vec2.length_smul (c : ℝ) (v : vec2) : (c • v).length = |c| * v.length := by
  unfold vec2.length vec2.length_squared
  have h : (c • v).x * (c • v).x + (c • v).y * (c • v).y =
      (c * c) * (v.x * v.x + v.y * v.y) := by
    simp
    ring
  rw [h, Real.sqrt_mul (mul_self_nonneg c), Real.sqrt_mul_self_eq_abs]

theorem vec2.length_squared_smul (c : ℝ) (v : vec2) :
    (c • v).length_squared = (c * c) * v.length_squared := by
  unfold vec2.length_squared
  simp
  ring

theorem vec2.length_squared_neg (v : vec2) : (-v).length_squared = v.length_squared := by
  unfold vec2.length_squared
  simp only [vec2.neg_x, vec2.neg_y]
  ring

theorem vec2.length_neg (v : vec2) : (-v).length = v.length := by
  unfold vec2.length
  rw [vec2.length_squared_neg]

/-- When the raw vector's length exceeds EPSILON, normalize scales to an
exactly unit vector. -/
theorem vec2.normalize_unit (v : vec2) (h : EPSILON < v.length) : v.normalize.length = 1 := by
  unfold vec2.normalize
  rw [if_pos]
  · rw [vec2.length_smul]
    have hl : 0 < v.length := lt_of_le_of_lt (by norm_num [EPSILON]) h
    rw [abs_of_pos (by positivity)]
    field_simp
  · rw [abs_of_nonneg v.length_nonneg]
    exact h

/-- Evaluation helper: a vector whose squared component sum is c*c has
length c (c nonnegative). -/
theorem vec2.length_eval (v : vec2) (c : ℝ) (h0 : 0 ≤ c)
    (h : v.x * v.x + v.y * v.y = c * c) : v.length = c := by
  unfold vec2.length vec2.length_squared
  rw [h, Real.sqrt_mul_self h0]

theorem bbox_preserves_fields (p : piece) :
    (piece.update_bounding_box p).bodies = p.bodies ∧
    (piece.update_bounding_box p).springs = p.springs ∧
    (piece.update_bounding_box p).quads = p.quads := by
  cases p with
  | mk bs ss qs mn mx => cases bs <;> exact ⟨rfl, rfl, rfl⟩

theorem getD_set_self {α : Type _} [Inhabited α] (l : List α) (i : Nat) (a : α)
    (h : i < l.length) : (l.set i a).getD i default = a := by
  simp [List.getD_eq_getElem?_getD, List.getElem?_set_self, h]

theorem getD_set_other {α : Type _} [Inhabited α] (l : List α) (i j : Nat) (a : α)
    (h : i ≠ j) : (l.set i a).getD j default = l.getD j default := by
  simp [List.getD_eq_getElem?_getD, List.getElem?_set_ne, h]

/-- C2: body::update_position computes speed = 0.75*(p - q), stores the old
position as prev_position and moves position to p + speed + (0, -1); the
body consists of exactly these two fields, so nothing else changes, and the
result depends only on the prior (position, prev_position) pair. -/
theorem body_update_position_spec (b : body) :
    body.update_position b =
      ⟨b.position + (0.75 : ℝ) • (b.position - b.prev_position) + ⟨0, -1⟩,
       b.position⟩ := by
  unfold body.update_position
  simp only [body.mk.injEq, and_true, true_and]
  ext
  · simp [DAMPING, GRAVITY]
  · simp [DAMPING, GRAVITY]
    ring

/-- C3: one spring relaxation step inside check_constraints computes
dir = p1 - p0, l = |dir|, f = 0.5*(l - L)/l and moves the endpoints to
p0 + f*dir and p1 - f*dir — equal and opposite corrections — both as the
position-pair formula and through the body references used by
check_constraints; check_constraints leaves the piece's springs (hence
every rest_length) unchanged. -/
theorem spring_relax_spec (p0 p1 : vec2) (rest : ℝ) (bodies : List body)
    (s : spring) (hne : p0 ≠ p1) (hii : s.i0 ≠ s.i1)
    (h0 : s.i0 < bodies.length) (h1 : s.i1 < bodies.length) :
    (relax_spring p0 p1 rest).1 =
      p0 + (0.5 * ((p1 - p0).length - rest) / (p1 - p0).length) • (p1 - p0) ∧
    (relax_spring p0 p1 rest).2 =
      p1 - (0.5 * ((p1 - p0).length - rest) / (p1 - p0).length) • (p1 - p0) ∧
    (relax_spring p0 p1 rest).1 - p0 = -((relax_spring p0 p1 rest).2 - p1) ∧
    ((apply_spring bodies s).getD s.i0 default).position =
      (relax_spring (bodies.getD s.i0 default).position
        (bodies.getD s.i1 default).position s.rest_length).1 ∧
    ((apply_spring bodies s).getD s.i1 default).position =
      (relax_spring (bodies.getD s.i0 default).position
        (bodies.getD s.i1 default).position s.rest_length).2 ∧
    (∀ (p : piece) (w h : Int), (p.check_constraints w h).springs = p.springs) := by
  have hii2 : s.i1 ≠ s.i0 := hii.symm
  refine ⟨rfl, rfl, ?_, ?_, ?_, ?_⟩
  · simp only [relax_spring]
    ext <;> simp <;> ring_nf
  · simp only [apply_spring, relax_spring]
    rw [getD_set_other _ _ _ _ hii2, getD_set_self _ _ _ h0]
  · simp only [apply_spring, relax_spring]
    rw [getD_set_self _ _ _ (by simp [h1]), getD_set_other _ _ _ _ hii]
  · intro p w h
    simp only [piece.check_constraints]
    rw [(bbox_preserves_fields _).2.1]

theorem spring_relax_spec_witness :
    (relax_spring ⟨0, 0⟩ ⟨3, 4⟩ 1).1 =
      ⟨0, 0⟩ + (0.5 * (((⟨3, 4⟩ : vec2) - ⟨0, 0⟩).length - 1) /
        ((⟨3, 4⟩ : vec2) - ⟨0, 0⟩).length) • ((⟨3, 4⟩ : vec2) - ⟨0, 0⟩) ∧
    (relax_spring ⟨0, 0⟩ ⟨3, 4⟩ 1).2 =
      ⟨3, 4⟩ - (0.5 * (((⟨3, 4⟩ : vec2) - ⟨0, 0⟩).length - 1) /
        ((⟨3, 4⟩ : vec2) - ⟨0, 0⟩).length) • ((⟨3, 4⟩ : vec2) - ⟨0, 0⟩) ∧
    (relax_spring ⟨0, 0⟩ ⟨3, 4⟩ 1).1 - ⟨0, 0⟩ =
      -((relax_spring ⟨0, 0⟩ ⟨3, 4⟩ 1).2 - ⟨3, 4⟩) ∧
    ((apply_spring [⟨⟨0, 0⟩, ⟨0, 0⟩⟩, ⟨⟨3, 4⟩, ⟨3, 4⟩⟩] ⟨0, 1, 5⟩).getD 0 default).position =
      (relax_spring ⟨0, 0⟩ ⟨3, 4⟩ 5).1 ∧
    ((apply_spring [⟨⟨0, 0⟩, ⟨0, 0⟩⟩, ⟨⟨3, 4⟩, ⟨3, 4⟩⟩] ⟨0, 1, 5⟩).getD 1 default).position =
      (relax_spring ⟨0, 0⟩ ⟨3, 4⟩ 5).2 ∧
    (∀ (p : piece) (w h : Int), (p.check_constraints w h).springs = p.springs) :=
  spring_relax_spec ⟨0, 0⟩ ⟨3, 4⟩ 1 [⟨⟨0, 0⟩, ⟨0, 0⟩⟩, ⟨⟨3, 4⟩, ⟨3, 4⟩⟩] ⟨0, 1, 5⟩
    (by intro hcontra; have hx := congrArg vec2.x hcontra; norm_num at hx)
    (by norm_num) (by norm_num) (by norm_num)

/-- C9: the spring relaxation divides by l with no guard: for coincident
endpoints (and only for them) the fallible embedding of the step lands in
the division-by-zero error branch, and under the precondition that the
endpoints are distinct (l > 0) the error branch is unreachable and the
step agrees with the total formula. -/
theorem spring_zero_length_unguarded :
    (∀ (p0 p1 : vec2) (rest : ℝ),
      relax_spring_checked p0 p1 rest = none ↔ p0 = p1) ∧
    (∀ (p0 p1 : vec2) (rest : ℝ), p0 ≠ p1 →
      relax_spring_checked p0 p1 rest = some (relax_spring p0 p1 rest)) := by
  constructor
  · intro p0 p1 rest
    simp only [relax_spring_checked]
    split_ifs with h
    · exact iff_of_true rfl
        ((vec2.sub_eq_zero_iff p0 p1).mp ((vec2.length_eq_zero_iff _).mp h))
    · refine iff_of_false (by simp) ?_
      intro he
      exact h ((vec2.length_eq_zero_iff _).mpr ((vec2.sub_eq_zero_iff p0 p1).mpr he))
  · intro p0 p1 rest hne
    simp only [relax_spring_checked, relax_spring]
    rw [if_neg]
    intro h0
    exact hne ((vec2.sub_eq_zero_iff p0 p1).mp ((vec2.length_eq_zero_iff _).mp h0))

theorem spring_zero_length_unguarded_witness :
    relax_spring_checked ⟨0, 0⟩ ⟨0, 0⟩ 5 = none ∧
    relax_spring_checked ⟨0, 0⟩ ⟨3, 4⟩ 5 = some (relax_spring ⟨0, 0⟩ ⟨3, 4⟩ 5) :=
  ⟨(spring_zero_length_unguarded.1 ⟨0, 0⟩ ⟨0, 0⟩ 5).mpr rfl,
   spring_zero_length_unguarded.2 ⟨0, 0⟩ ⟨3, 4⟩ 5
     (by intro hcontra; have hx := congrArg vec2.x hcontra; norm_num at hx)⟩

theorem bbox_fold_bounds (l : List body) :
    ∀ (m M : vec2),
    ((l.foldl bbox_step (m, M)).1.x ≤ m.x ∧ (l.foldl bbox_step (m, M)).1.y ≤ m.y ∧
     M.x ≤ (l.foldl bbox_step (m, M)).2.x ∧ M.y ≤ (l.foldl bbox_step (m, M)).2.y) ∧
    (∀ b ∈ l,
      (l.foldl bbox_step (m, M)).1.x ≤ b.position.x ∧
      b.position.x ≤ (l.foldl bbox_step (m, M)).2.x ∧
      (l.foldl bbox_step (m, M)).1.y ≤ b.position.y ∧
      b.position.y ≤ (l.foldl bbox_step (m, M)).2.y) := by
  induction l with
  | nil => intro m M; simp
  | cons hd tl ih =>
    intro m M
    simp only [List.foldl_cons]
    obtain ⟨⟨hmx, hmy, hMx, hMy⟩, hall⟩ := ih (bbox_step (m, M) hd).1 (bbox_step (m, M) hd).2
    have hstep : bbox_step (m, M) hd =
        (⟨min m.x hd.position.x, min m.y hd.position.y⟩,
         ⟨max M.x hd.position.x, max M.y hd.position.y⟩) := rfl
    rw [hstep] at hmx hmy hMx hMy hall ⊢
    refine ⟨⟨le_trans hmx (min_le_left _ _), le_trans hmy (min_le_left _ _),
             le_trans (le_max_left _ _) hMx, le_trans (le_max_left _ _) hMy⟩, ?_⟩
    intro b hb
    rcases List.mem_cons.mp hb with rfl | hb2
    · exact ⟨le_trans hmx (min_le_right _ _), le_trans (le_max_right _ _) hMx,
             le_trans hmy (min_le_right _ _), le_trans (le_max_right _ _) hMy⟩
    · exact hall b hb2

theorem bbox_fold_tight (l : List body) :
    ∀ (m M : vec2),
    ((l.foldl bbox_step (m, M)).1.x = m.x ∨
      ∃ b ∈ l, (l.foldl bbox_step (m, M)).1.x = b.position.x) ∧
    ((l.foldl bbox_step (m, M)).1.y = m.y ∨
      ∃ b ∈ l, (l.foldl bbox_step (m, M)).1.y = b.position.y) ∧
    ((l.foldl bbox_step (m, M)).2.x = M.x ∨
      ∃ b ∈ l, (l.foldl bbox_step (m, M)).2.x = b.position.x) ∧
    ((l.foldl bbox_step (m, M)).2.y = M.y ∨
      ∃ b ∈ l, (l.foldl bbox_step (m, M)).2.y = b.position.y) := by
  induction l with
  | nil => intro m M; simp
  | cons hd tl ih =>
    intro m M
    simp only [List.foldl_cons]
    obtain ⟨h1, h2, h3, h4⟩ := ih (bbox_step (m, M) hd).1 (bbox_step (m, M) hd).2
    have hstep : bbox_step (m, M) hd =
        (⟨min m.x hd.position.x, min m.y hd.position.y⟩,
         ⟨max M.x hd.position.x, max M.y hd.position.y⟩) := rfl
    rw [hstep] at h1 h2 h3 h4 ⊢
    constructor
    · rcases h1 with h1 | ⟨b, hb, he⟩
      · rcases min_choice m.x hd.position.x with hc | hc
        · exact Or.inl (h1.trans hc)
        · exact Or.inr ⟨hd, List.mem_cons_self _ _, h1.trans hc⟩
      · exact Or.inr ⟨b, List.mem_cons_of_mem _ hb, he⟩
    constructor
    · rcases h2 with h2 | ⟨b, hb, he⟩
      · rcases min_choice m.y hd.position.y with hc | hc
        · exact Or.inl (h2.trans hc)
        · exact Or.inr ⟨hd, List.mem_cons_self _ _, h2.trans hc⟩
      · exact Or.inr ⟨b, List.mem_cons_of_mem _ hb, he⟩
    constructor
    · rcases h3 with h3 | ⟨b, hb, he⟩
      · rcases max_choice M.x hd.position.x with hc | hc
        · exact Or.inl (h3.trans hc)
        · exact Or.inr ⟨hd, List.mem_cons_self _ _, h3.trans hc⟩
      · exact Or.inr ⟨b, List.mem_cons_of_mem _ hb, he⟩
    · rcases h4 with h4 | ⟨b, hb, he⟩
      · rcases max_choice M.y hd.position.y with hc | hc
        · exact Or.inl (h4.trans hc)
        · exact Or.inr ⟨hd, List.mem_cons_self _ _, h4.trans hc⟩
      · exact Or.inr ⟨b, List.mem_cons_of_mem _ hb, he⟩

/-- C5: after update_bounding_box, every body position of the piece lies in
[min_pos, max_pos] on both axes, and the box is tight: each of the four
bounds is attained by some body of the piece. -/
theorem update_bounding_box_spec (p : piece) (hne : p.bodies ≠ []) :
    (∀ b ∈ (p.update_bounding_box).bodies,
      (p.update_bounding_box).min_pos.x ≤ b.position.x ∧
      b.position.x ≤ (p.update_bounding_box).max_pos.x ∧
      (p.update_bounding_box).min_pos.y ≤ b.position.y ∧
      b.position.y ≤ (p.update_bounding_box).max_pos.y) ∧
    (∃ b ∈ (p.update_bounding_box).bodies,
      (p.update_bounding_box).min_pos.x = b.position.x) ∧
    (∃ b ∈ (p.update_bounding_box).bodies,
      (p.update_bounding_box).min_pos.y = b.position.y) ∧
    (∃ b ∈ (p.update_bounding_box).bodies,
      (p.update_bounding_box).max_pos.x = b.position.x) ∧
    (∃ b ∈ (p.update_bounding_box).bodies,
      (p.update_bounding_box).max_pos.y = b.position.y) := by
  cases p with
  | mk bs ss qs mn mx =>
    cases bs with
    | nil => exact absurd rfl hne
    | cons b0 rest =>
      simp only [piece.update_bounding_box]
      obtain ⟨⟨hmx, hmy, hMx, hMy⟩, hall⟩ := bbox_fold_bounds rest b0.position b0.position
      obtain ⟨h1, h2, h3, h4⟩ := bbox_fold_tight rest b0.position b0.position
      constructor
      · intro b hb
        rcases List.mem_cons.mp hb with rfl | hb2
        · exact ⟨hmx, hMx, hmy, hMy⟩
        · exact hall b hb2
      refine ⟨?_, ?_, ?_, ?_⟩
      · rcases h1 with h | ⟨b, hb, he⟩
        · exact ⟨b0, List.mem_cons_self _ _, h⟩
        · exact ⟨b, List.mem_cons_of_mem _ hb, he⟩
      · rcases h2 with h | ⟨b, hb, he⟩
        · exact ⟨b0, List.mem_cons_self _ _, h⟩
        · exact ⟨b, List.mem_cons_of_mem _ hb, he⟩
      · rcases h3 with h | ⟨b, hb, he⟩
        · exact ⟨b0, List.mem_cons_self _ _, h⟩
        · exact ⟨b, List.mem_cons_of_mem _ hb, he⟩
      · rcases h4 with h | ⟨b, hb, he⟩
        · exact ⟨b0, List.mem_cons_self _ _, h⟩
        · exact ⟨b, List.mem_cons_of_mem _ hb, he⟩

theorem update_bounding_box_spec_witness :
    (∀ b ∈ ((⟨[⟨⟨1, 5⟩, ⟨1, 5⟩⟩, ⟨⟨3, 2⟩, ⟨3, 2⟩⟩], [], [], ⟨0, 0⟩, ⟨0, 0⟩⟩ :
        piece).update_bounding_box).bodies,
      ((⟨[⟨⟨1, 5⟩, ⟨1, 5⟩⟩, ⟨⟨3, 2⟩, ⟨3, 2⟩⟩], [], [], ⟨0, 0⟩, ⟨0, 0⟩⟩ :
        piece).update_bounding_box).min_pos.x ≤ b.position.x ∧
      b.position.x ≤ ((⟨[⟨⟨1, 5⟩, ⟨1, 5⟩⟩, ⟨⟨3, 2⟩, ⟨3, 2⟩⟩], [], [], ⟨0, 0⟩, ⟨0, 0⟩⟩ :
        piece).update_bounding_box).max_pos.x ∧
      ((⟨[⟨⟨1, 5⟩, ⟨1, 5⟩⟩, ⟨⟨3, 2⟩, ⟨3, 2⟩⟩], [], [], ⟨0, 0⟩, ⟨0, 0⟩⟩ :
        piece).update_bounding_box).min_pos.y ≤ b.position.y ∧
      b.position.y ≤ ((⟨[⟨⟨1, 5⟩, ⟨1, 5⟩⟩, ⟨⟨3, 2⟩, ⟨3, 2⟩⟩], [], [], ⟨0, 0⟩, ⟨0, 0⟩⟩ :
        piece).update_bounding_box).max_pos.y) ∧
    (∃ b ∈ ((⟨[⟨⟨1, 5⟩, ⟨1, 5⟩⟩, ⟨⟨3, 2⟩, ⟨3, 2⟩⟩], [], [], ⟨0, 0⟩, ⟨0, 0⟩⟩ :
        piece).update_bounding_box).bodies,
      ((⟨[⟨⟨1, 5⟩, ⟨1, 5⟩⟩, ⟨⟨3, 2⟩, ⟨3, 2⟩⟩], [], [], ⟨0, 0⟩, ⟨0, 0⟩⟩ :
        piece).update_bounding_box).min_pos.x = b.position.x) ∧
    (∃ b ∈ ((⟨[⟨⟨1, 5⟩, ⟨1, 5⟩⟩, ⟨⟨3, 2⟩, ⟨3, 2⟩⟩], [], [], ⟨0, 0⟩, ⟨0, 0⟩⟩ :
        piece).update_bounding_box).bodies,
      ((⟨[⟨⟨1, 5⟩, ⟨1, 5⟩⟩, ⟨⟨3, 2⟩, ⟨3, 2⟩⟩], [], [], ⟨0, 0⟩, ⟨0, 0⟩⟩ :
        piece).update_bounding_box).min_pos.y = b.position.y) ∧
    (∃ b ∈ ((⟨[⟨⟨1, 5⟩, ⟨1, 5⟩⟩, ⟨⟨3, 2⟩, ⟨3, 2⟩⟩], [], [], ⟨0, 0⟩, ⟨0, 0⟩⟩ :
        piece).update_bounding_box).bodies,
      ((⟨[⟨⟨1, 5⟩, ⟨1, 5⟩⟩, ⟨⟨3, 2⟩, ⟨3, 2⟩⟩], [], [], ⟨0, 0⟩, ⟨0, 0⟩⟩ :
        piece).update_bounding_box).max_pos.x = b.position.x) ∧
    (∃ b ∈ ((⟨[⟨⟨1, 5⟩, ⟨1, 5⟩⟩, ⟨⟨3, 2⟩, ⟨3, 2⟩⟩], [], [], ⟨0, 0⟩, ⟨0, 0⟩⟩ :
        piece).update_bounding_box).bodies,
      ((⟨[⟨⟨1, 5⟩, ⟨1, 5⟩⟩, ⟨⟨3, 2⟩, ⟨3, 2⟩⟩], [], [], ⟨0, 0⟩, ⟨0, 0⟩⟩ :
        piece).update_bounding_box).max_pos.y = b.position.y) :=
  update_bounding_box_spec ⟨[⟨⟨1, 5⟩, ⟨1, 5⟩⟩, ⟨⟨3, 2⟩, ⟨3, 2⟩⟩], [], [], ⟨0, 0⟩, ⟨0, 0⟩⟩
    (by simp)

/-- C7: the bowl-variant wall pass treats a body above the bowl's center
line (y > bowl radius = width/2) with the two vertical walls only, moving x
by FRICTION = 0.6 times the penetration past x = 0 or x = width; otherwise,
with d the offset from the bowl center and r = |d|, a body with r beyond
the bowl radius moves by d scaled by FRICTION*(r - radius)/r toward the
center. -/
theorem wall_clamp_spec (w : Int) (p : vec2) (hw : 0 ≤ (w : ℝ)) :
    (p.y > 0.5 * (w : ℝ) →
      wall_clamp w p =
        ⟨if p.x < 0 then p.x + 0.6 * (0 - p.x)
         else if p.x > (w : ℝ) then p.x + 0.6 * ((w : ℝ) - p.x) else p.x, p.y⟩) ∧
    (¬ p.y > 0.5 * (w : ℝ) →
      wall_clamp w p =
        (if (p - ⟨0.5 * (w : ℝ), 0.5 * (w : ℝ)⟩).length > 0.5 * (w : ℝ) then
          p - (0.6 * ((p - ⟨0.5 * (w : ℝ), 0.5 * (w : ℝ)⟩).length - 0.5 * (w : ℝ)) /
            (p - ⟨0.5 * (w : ℝ), 0.5 * (w : ℝ)⟩).length) •
              (p - ⟨0.5 * (w : ℝ), 0.5 * (w : ℝ)⟩)
         else p)) := by
  constructor
  · intro hy
    simp only [wall_clamp, FRICTION]
    rw [if_pos hy]
    split_ifs with h1 h2 h3
    · exfalso
      linarith
    · ext <;> simp
    · rfl
    · rfl
  · intro hy
    simp only [wall_clamp, FRICTION]
    rw [if_neg hy]
    rfl

theorem wall_clamp_spec_witness :
    ((⟨-2, 60⟩ : vec2).y > 0.5 * ((100 : Int) : ℝ) →
      wall_clamp 100 ⟨-2, 60⟩ =
        ⟨if (⟨-2, 60⟩ : vec2).x < 0 then (⟨-2, 60⟩ : vec2).x + 0.6 * (0 - (⟨-2, 60⟩ : vec2).x)
         else if (⟨-2, 60⟩ : vec2).x > ((100 : Int) : ℝ) then
           (⟨-2, 60⟩ : vec2).x + 0.6 * (((100 : Int) : ℝ) - (⟨-2, 60⟩ : vec2).x)
         else (⟨-2, 60⟩ : vec2).x, (⟨-2, 60⟩ : vec2).y⟩) ∧
    (¬ (⟨-2, 60⟩ : vec2).y > 0.5 * ((100 : Int) : ℝ) →
      wall_clamp 100 ⟨-2, 60⟩ =
        (if ((⟨-2, 60⟩ : vec2) - ⟨0.5 * ((100 : Int) : ℝ), 0.5 * ((100 : Int) : ℝ)⟩).length >
            0.5 * ((100 : Int) : ℝ) then
          (⟨-2, 60⟩ : vec2) -
            (0.6 * (((⟨-2, 60⟩ : vec2) -
                ⟨0.5 * ((100 : Int) : ℝ), 0.5 * ((100 : Int) : ℝ)⟩).length -
                0.5 * ((100 : Int) : ℝ)) /
              ((⟨-2, 60⟩ : vec2) -
                ⟨0.5 * ((100 : Int) : ℝ), 0.5 * ((100 : Int) : ℝ)⟩).length) •
              ((⟨-2, 60⟩ : vec2) - ⟨0.5 * ((100 : Int) : ℝ), 0.5 * ((100 : Int) : ℝ)⟩)
         else ⟨-2, 60⟩)) :=
  wall_clamp_spec 100 ⟨-2, 60⟩ (by norm_num)

theorem sat_test_eq_none_iff (first : Bool) (t0 t1 : quad) (push pfrom pto : vec2) :
    separating_axis_test first t0 t1 push pfrom pto = none ↔
      separated_on (axis_of_edge pfrom pto) t0 t1 := by
  simp only [separating_axis_test, separated_on]
  split_ifs with h1 h2 <;> simp_all

theorem sat_scan_ne_none_iff (t0 t1 : quad) :
    ∀ (es : List (vec2 × vec2)) (first : Bool) (push : vec2),
    sat_scan t0 t1 first push es ≠ none ↔
      ∀ e ∈ es, ¬ separated_on (axis_of_edge e.1 e.2) t0 t1 := by
  intro es
  induction es with
  | nil => intro first push; simp [sat_scan]
  | cons e rest ih =>
    intro first push
    by_cases hsep : separated_on (axis_of_edge e.1 e.2) t0 t1
    · have hnone : separating_axis_test first t0 t1 push e.1 e.2 = none :=
        (sat_test_eq_none_iff first t0 t1 push e.1 e.2).mpr hsep
      simp [sat_scan, hnone, hsep]
    · have hne : separating_axis_test first t0 t1 push e.1 e.2 ≠ none := by
        intro hx
        exact hsep ((sat_test_eq_none_iff first t0 t1 push e.1 e.2).mp hx)
      obtain ⟨v, hv⟩ := Option.ne_none_iff_exists'.mp hne
      simp [sat_scan, hv, hsep, ih false v]

theorem quad_intersection_fst_iff (t0 t1 : quad) :
    (quad_intersection t0 t1).1 = true ↔
      ∀ e ∈ quad_edges t0 t1, ¬ separated_on (axis_of_edge e.1 e.2) t0 t1 := by
  unfold quad_intersection quad_collision_scan
  rcases h : sat_scan t0 t1 true ⟨0, 0⟩ (quad_edges t0 t1) with _ | v
  · have := (not_iff_not.mpr (sat_scan_ne_none_iff t0 t1 (quad_edges t0 t1) true ⟨0, 0⟩)).mp
      (by simp [h])
    simp only [h]
    exact iff_of_false (by simp) this
  · have := (sat_scan_ne_none_iff t0 t1 (quad_edges t0 t1) true ⟨0, 0⟩).mp (by simp [h])
    simp only [h]
    exact iff_of_true (by simp) this

/-- C1: the intersection test scans exactly the 8 normalized edge
perpendiculars of q0 then q1, projecting all four corners of both quads
onto each; it reports no collision as soon as one axis separates the
projection intervals (with the 1e-5 epsilon of world.cpp line 196, i.e.
s0.max < s1.min + eps or s1.max < s0.min + eps), and reports a collision
exactly when none of the 8 axes separates. -/
theorem quad_intersection_sat_spec (t0 t1 : quad) :
    (candidate_axes t0 t1).length = 8 ∧
    EPSILON = 1e-5 ∧
    ((quad_intersection t0 t1).1 = true ↔
      ∀ a ∈ candidate_axes t0 t1, ¬ separated_on a t0 t1) := by
  refine ⟨by simp [candidate_axes, quad_edges, quad_edge_list], rfl, ?_⟩
  rw [quad_intersection_fst_iff t0 t1]
  constructor
  · intro h a ha
    simp only [candidate_axes, List.mem_map] at ha
    obtain ⟨e, he, rfl⟩ := ha
    exact h e he
  · intro h e he
    exact h (axis_of_edge e.1 e.2) (by
      simp only [candidate_axes, List.mem_map]
      exact ⟨e, he, rfl⟩)

theorem separated_on_symm (a : vec2) (t0 t1 : quad) :
    separated_on a t0 t1 ↔ separated_on a t1 t0 := by
  unfold separated_on sep_interval
  exact or_comm

/-- C8: the boolean result of the separating-axis collision test does not
depend on the argument order. -/
theorem quad_intersection_symm (t0 t1 : quad) :
    (quad_intersection t0 t1).1 = (quad_intersection t1 t0).1 := by
  have h01 := quad_intersection_fst_iff t0 t1
  have h10 := quad_intersection_fst_iff t1 t0
  have hequiv :
      (∀ e ∈ quad_edges t0 t1, ¬ separated_on (axis_of_edge e.1 e.2) t0 t1) ↔
      (∀ e ∈ quad_edges t1 t0, ¬ separated_on (axis_of_edge e.1 e.2) t1 t0) := by
    simp only [quad_edges, List.forall_mem_append]
    constructor
    · rintro ⟨hA, hB⟩
      exact ⟨fun e he => (not_congr (separated_on_symm _ _ _)).mp (hB e he),
             fun e he => (not_congr (separated_on_symm _ _ _)).mp (hA e he)⟩
    · rintro ⟨hA, hB⟩
      exact ⟨fun e he => (not_congr (separated_on_symm _ _ _)).mp (hB e he),
             fun e he => (not_congr (separated_on_symm _ _ _)).mp (hA e he)⟩
  cases hv0 : (quad_intersection t0 t1).1 <;> cases hv1 : (quad_intersection t1 t0).1 <;>
    try rfl
  · have := h01.mpr (hequiv.mpr (h10.mp hv1))
    rw [hv0] at this
    exact absurd this (by simp)
  · have := h10.mpr (hequiv.mp (h01.mp hv0))
    rw [hv1] at this
    exact absurd this (by simp)

theorem sat_test_some_eval (first : Bool) (t0 t1 : quad) (push pfrom pto : vec2)
    (hu : (axis_of_edge pfrom pto).length = 1)
    (hns : ¬ separated_on (axis_of_edge pfrom pto) t0 t1) :
    separating_axis_test first t0 t1 push pfrom pto =
      some (if first = true ∨
          (push_candidate t0 t1 (axis_of_edge pfrom pto)).length_squared <
            push.length_squared
        then push_candidate t0 t1 (axis_of_edge pfrom pto) else push) := by
  have h03 : (0.5 * FRICTION : ℝ) = 0.3 := by norm_num [FRICTION]
  have hls : (axis_of_edge pfrom pto).length_squared = 1 := by
    rw [← vec2.length_mul_self, hu]
    norm_num
  have hnls : (-(axis_of_edge pfrom pto)).length_squared = 1 := by
    rw [vec2.length_squared_neg]
    exact hls
  have hnu : (-(axis_of_edge pfrom pto)).length = 1 := by
    rw [vec2.length_neg]
    exact hu
  have hns2 : ¬ sep_interval
      (project_quad_to_axis (axis_of_edge pfrom pto) t0)
      (project_quad_to_axis (axis_of_edge pfrom pto) t1) := hns
  simp only [separating_axis_test, push_candidate]
  rw [if_neg hns2]
  by_cases hC : (project_quad_to_axis (axis_of_edge pfrom pto) t0).2 -
      (project_quad_to_axis (axis_of_edge pfrom pto) t1).1 <
      (project_quad_to_axis (axis_of_edge pfrom pto) t1).2 -
      (project_quad_to_axis (axis_of_edge pfrom pto) t0).1
  · rw [if_pos hC, if_pos hC]
    dsimp only
    simp only [hu, h03, div_one, vec2.length_squared_smul, hls, mul_one]
    split_ifs <;> rfl
  · rw [if_neg hC, if_neg hC]
    dsimp only
    simp only [hnu, h03, div_one, vec2.length_squared_smul, hnls, mul_one]
    split_ifs <;> rfl

theorem sat_scan_eval (t0 t1 : quad) :
    ∀ (es : List (vec2 × vec2)) (push : vec2),
    (∀ e ∈ es, (axis_of_edge e.1 e.2).length = 1) →
    (∀ e ∈ es, ¬ separated_on (axis_of_edge e.1 e.2) t0 t1) →
    sat_scan t0 t1 false push es =
      some (es.foldl (fun best e =>
        if (push_candidate t0 t1 (axis_of_edge e.1 e.2)).length_squared <
            best.length_squared
        then push_candidate t0 t1 (axis_of_edge e.1 e.2) else best) push) := by
  intro es
  induction es with
  | nil =>
    intro push _ _
    simp [sat_scan]
  | cons e rest ih =>
    intro push hu hns
    have hstep := sat_test_some_eval false t0 t1 push e.1 e.2
      (hu e (List.mem_cons_self _ _)) (hns e (List.mem_cons_self _ _))
    rw [sat_scan, hstep]
    simp only [Bool.false_eq_true, false_or, List.foldl_cons]
    exact ih _ (fun e2 he2 => hu e2 (List.mem_cons_of_mem _ he2))
      (fun e2 he2 => hns e2 (List.mem_cons_of_mem _ he2))

theorem sat_scan_cons (t0 t1 : quad) (first : Bool) (push : vec2)
    (e : vec2 × vec2) (rest : List (vec2 × vec2)) :
    sat_scan t0 t1 first push (e :: rest) =
      match separating_axis_test first t0 t1 push e.1 e.2 with
      | none => none
      | some push2 => sat_scan t0 t1 false push2 rest := rfl

theorem min_push_eval (t0 t1 : quad) :
    min_push t0 t1 =
      ((t0.p1, t0.p2) :: (t0.p2, t0.p3) :: (t0.p3, t0.p0) :: quad_edge_list t1).foldl
        (fun best e =>
          if (push_candidate t0 t1 (axis_of_edge e.1 e.2)).length_squared <
              best.length_squared
          then push_candidate t0 t1 (axis_of_edge e.1 e.2) else best)
        (push_candidate t0 t1 (axis_of_edge t0.p0 t0.p1)) := by
  have hedges : quad_edges t0 t1 =
      (t0.p0, t0.p1) :: ((t0.p1, t0.p2) :: (t0.p2, t0.p3) :: (t0.p3, t0.p0) ::
        quad_edge_list t1) := rfl
  simp only [min_push, candidate_axes, hedges, List.map_cons, List.foldl_cons,
    List.foldl_map]

set_option maxHeartbeats 1000000 in
theorem quad_collision_scan_eval (t0 t1 : quad)
    (hu : ∀ e ∈ quad_edges t0 t1, EPSILON < (raw_normal e.1 e.2).length)
    (hns : ∀ a ∈ candidate_axes t0 t1, ¬ separated_on a t0 t1) :
    quad_collision_scan t0 t1 = some (min_push t0 t1) := by
  have hu2 : ∀ e ∈ quad_edges t0 t1, (axis_of_edge e.1 e.2).length = 1 :=
    fun e he => vec2.normalize_unit _ (hu e he)
  have hns2 : ∀ e ∈ quad_edges t0 t1, ¬ separated_on (axis_of_edge e.1 e.2) t0 t1 :=
    fun e he => hns _ (List.mem_map.mpr ⟨e, he, rfl⟩)
  have hedges : quad_edges t0 t1 =
      (t0.p0, t0.p1) :: ((t0.p1, t0.p2) :: (t0.p2, t0.p3) :: (t0.p3, t0.p0) ::
        quad_edge_list t1) := rfl
  rw [hedges] at hu2 hns2
  have hmem1 : ((t0.p0, t0.p1) : vec2 × vec2) ∈
      (t0.p0, t0.p1) :: ((t0.p1, t0.p2) :: (t0.p2, t0.p3) :: (t0.p3, t0.p0) ::
        quad_edge_list t1) := List.mem_cons_self _ _
  have hua := hu2 _ hmem1
  have hnsa := hns2 _ hmem1
  have h1 := sat_test_some_eval true t0 t1 ⟨0, 0⟩ t0.p0 t0.p1 hua hnsa
  have h1s : separating_axis_test true t0 t1 ⟨0, 0⟩ t0.p0 t0.p1 =
      some (push_candidate t0 t1 (axis_of_edge t0.p0 t0.p1)) := by
    rw [h1, if_pos (Or.inl rfl)]
  have h2 := sat_scan_eval t0 t1
    ((t0.p1, t0.p2) :: (t0.p2, t0.p3) :: (t0.p3, t0.p0) :: quad_edge_list t1)
    (push_candidate t0 t1 (axis_of_edge t0.p0 t0.p1))
    (fun e2 he2 => hu2 e2 (List.mem_cons_of_mem _ he2))
    (fun e2 he2 => hns2 e2 (List.mem_cons_of_mem _ he2))
  unfold quad_collision_scan
  rw [hedges, sat_scan_cons, h1s]
  dsimp only
  rw [h2, min_push_eval]

/-- C4: when the quads overlap, the applied push vector is exactly the
greedy minimum over the eight axes of the per-axis candidates (smaller of
the two overlap depths, sign flipped toward quad1, scaled by
0.5*FRICTION = 0.3; first axis unconditional, later axes only on strictly
smaller squared length), t0 moving by -push and t1 by +push.  The
hypotheses state that every edge normal is long enough to normalize and
that no axis separates. -/
theorem quad_push_vector_spec (t0 t1 : quad)
    (hu : ∀ e ∈ quad_edges t0 t1, EPSILON < (raw_normal e.1 e.2).length)
    (hns : ∀ a ∈ candidate_axes t0 t1, ¬ separated_on a t0 t1) :
    (0.5 * FRICTION : ℝ) = 0.3 ∧
    quad_intersection t0 t1 =
      (true,
       ⟨t0.p0 - min_push t0 t1, t0.p1 - min_push t0 t1,
        t0.p2 - min_push t0 t1, t0.p3 - min_push t0 t1⟩,
       ⟨t1.p0 + min_push t0 t1, t1.p1 + min_push t0 t1,
        t1.p2 + min_push t0 t1, t1.p3 + min_push t0 t1⟩) := by
  refine ⟨by norm_num [FRICTION], ?_⟩
  unfold quad_intersection
  rw [quad_collision_scan_eval t0 t1 hu hns]

theorem abs_twenty : |(20 : ℝ)| = 20 := abs_of_nonneg (by norm_num)

theorem normalize_up : (vec2.mk 0 20).normalize = ⟨0, 1⟩ := by
  have hl : (vec2.mk 0 20).length = 20 := vec2.length_eval _ 20 (by norm_num) (by norm_num)
  unfold vec2.normalize
  rw [hl, if_pos (by rw [abs_twenty]; norm_num [EPSILON])]
  ext <;> simp <;> norm_num

theorem normalize_left : (vec2.mk (-20) 0).normalize = ⟨-1, 0⟩ := by
  have hl : (vec2.mk (-20) 0).length = 20 := vec2.length_eval _ 20 (by norm_num) (by norm_num)
  unfold vec2.normalize
  rw [hl, if_pos (by rw [abs_twenty]; norm_num [EPSILON])]
  ext <;> simp <;> norm_num

theorem normalize_down : (vec2.mk 0 (-20)).normalize = ⟨0, -1⟩ := by
  have hl : (vec2.mk 0 (-20)).length = 20 := vec2.length_eval _ 20 (by norm_num) (by norm_num)
  unfold vec2.normalize
  rw [hl, if_pos (by rw [abs_twenty]; norm_num [EPSILON])]
  ext <;> simp <;> norm_num

theorem normalize_right : (vec2.mk 20 0).normalize = ⟨1, 0⟩ := by
  have hl : (vec2.mk 20 0).length = 20 := vec2.length_eval _ 20 (by norm_num) (by norm_num)
  unfold vec2.normalize
  rw [hl, if_pos (by rw [abs_twenty]; norm_num [EPSILON])]
  ext <;> simp <;> norm_num

theorem not_sep_up : ¬ separated_on ⟨0, 1⟩ qA qB := by
  unfold separated_on sep_interval project_quad_to_axis vec2.dot qA qB EPSILON
  norm_num [min_def, max_def]

theorem not_sep_left : ¬ separated_on ⟨-1, 0⟩ qA qB := by
  unfold separated_on sep_interval project_quad_to_axis vec2.dot qA qB EPSILON
  norm_num [min_def, max_def]

theorem not_sep_down : ¬ separated_on ⟨0, -1⟩ qA qB := by
  unfold separated_on sep_interval project_quad_to_axis vec2.dot qA qB EPSILON
  norm_num [min_def, max_def]

theorem not_sep_right : ¬ separated_on ⟨1, 0⟩ qA qB := by
  unfold separated_on sep_interval project_quad_to_axis vec2.dot qA qB EPSILON
  norm_num [min_def, max_def]

theorem quad_push_vector_spec_witness :
    (∀ e ∈ quad_edges qA qB, EPSILON < (raw_normal e.1 e.2).length) ∧
    (∀ a ∈ candidate_axes qA qB, ¬ separated_on a qA qB) ∧
    ((0.5 * FRICTION : ℝ) = 0.3 ∧
     quad_intersection qA qB =
       (true,
        ⟨qA.p0 - min_push qA qB, qA.p1 - min_push qA qB,
         qA.p2 - min_push qA qB, qA.p3 - min_push qA qB⟩,
        ⟨qB.p0 + min_push qA qB, qB.p1 + min_push qA qB,
         qB.p2 + min_push qA qB, qB.p3 + min_push qA qB⟩)) := by
  have h1 : ∀ e ∈ quad_edges qA qB, EPSILON < (raw_normal e.1 e.2).length := by
    intro e he
    simp only [quad_edges, quad_edge_list, qA, qB, List.mem_append, List.mem_cons,
      List.not_mem_nil, or_false] at he
    rcases he with ((rfl | rfl | rfl | rfl) | (rfl | rfl | rfl | rfl)) <;>
      (rw [vec2.length_eval _ 20 (by norm_num) (by norm_num [raw_normal])]
       norm_num [EPSILON])
  have h2 : ∀ a ∈ candidate_axes qA qB, ¬ separated_on a qA qB := by
    intro a ha
    simp only [candidate_axes, List.mem_map] at ha
    obtain ⟨e, he, rfl⟩ := ha
    simp only [quad_edges, quad_edge_list, qA, qB, List.mem_append, List.mem_cons,
      List.not_mem_nil, or_false] at he
    rcases he with ((rfl | rfl | rfl | rfl) | (rfl | rfl | rfl | rfl)) <;> dsimp only
    · rw [show axis_of_edge (⟨0, 0⟩ : vec2) ⟨20, 0⟩ = ⟨0, 1⟩ from by
        unfold axis_of_edge
        rw [show raw_normal (⟨0, 0⟩ : vec2) ⟨20, 0⟩ = ⟨0, 20⟩ from by
          ext <;> norm_num [raw_normal]]
        exact normalize_up]
      exact not_sep_up
    · rw [show axis_of_edge (⟨20, 0⟩ : vec2) ⟨20, 20⟩ = ⟨-1, 0⟩ from by
        unfold axis_of_edge
        rw [show raw_normal (⟨20, 0⟩ : vec2) ⟨20, 20⟩ = ⟨-20, 0⟩ from by
          ext <;> norm_num [raw_normal]]
        exact normalize_left]
      exact not_sep_left
    · rw [show axis_of_edge (⟨20, 20⟩ : vec2) ⟨0, 20⟩ = ⟨0, -1⟩ from by
        unfold axis_of_edge
        rw [show raw_normal (⟨20, 20⟩ : vec2) ⟨0, 20⟩ = ⟨0, -20⟩ from by
          ext <;> norm_num [raw_normal]]
        exact normalize_down]
      exact not_sep_down
    · rw [show axis_of_edge (⟨0, 20⟩ : vec2) ⟨0, 0⟩ = ⟨1, 0⟩ from by
        unfold axis_of_edge
        rw [show raw_normal (⟨0, 20⟩ : vec2) ⟨0, 0⟩ = ⟨20, 0⟩ from by
          ext <;> norm_num [raw_normal]]
        exact normalize_right]
      exact not_sep_right
    · rw [show axis_of_edge (⟨10, 0⟩ : vec2) ⟨30, 0⟩ = ⟨0, 1⟩ from by
        unfold axis_of_edge
        rw [show raw_normal (⟨10, 0⟩ : vec2) ⟨30, 0⟩ = ⟨0, 20⟩ from by
          ext <;> norm_num [raw_normal]]
        exact normalize_up]
      exact not_sep_up
    · rw [show axis_of_edge (⟨30, 0⟩ : vec2) ⟨30, 20⟩ = ⟨-1, 0⟩ from by
        unfold axis_of_edge
        rw [show raw_normal (⟨30, 0⟩ : vec2) ⟨30, 20⟩ = ⟨-20, 0⟩ from by
          ext <;> norm_num [raw_normal]]
        exact normalize_left]
      exact not_sep_left
    · rw [show axis_of_edge (⟨30, 20⟩ : vec2) ⟨10, 20⟩ = ⟨0, -1⟩ from by
        unfold axis_of_edge
        rw [show raw_normal (⟨30, 20⟩ : vec2) ⟨10, 20⟩ = ⟨0, -20⟩ from by
          ext <;> norm_num [raw_normal]]
        exact normalize_down]
      exact not_sep_down
    · rw [show axis_of_edge (⟨10, 20⟩ : vec2) ⟨10, 0⟩ = ⟨1, 0⟩ from by
        unfold axis_of_edge
        rw [show raw_normal (⟨10, 20⟩ : vec2) ⟨10, 0⟩ = ⟨20, 0⟩ from by
          ext <;> norm_num [raw_normal]]
        exact normalize_right]
      exact not_sep_right
  exact ⟨h1, h2, quad_push_vector_spec qA qB h1 h2⟩

theorem foldl_length_inv {α : Type _} (f : List piece → α → List piece)
    (h : ∀ ps a, (f ps a).length = ps.length) :
    ∀ (l : List α) (ps : List piece), (l.foldl f ps).length = ps.length := by
  intro l
  induction l with
  | nil => intro ps; rfl
  | cons a rest ih =>
    intro ps
    rw [List.foldl_cons, ih (f ps a), h ps a]

theorem collide_pair_length (ps : List piece) (j k : Nat) :
    (collide_pair ps j k).length = ps.length := by
  simp [collide_pair]

theorem collide_all_length (ps : List piece) :
    (collide_all ps).length = ps.length := by
  unfold collide_all
  refine foldl_length_inv _ ?_ _ _
  intro ps2 j
  refine foldl_length_inv _ ?_ _ _
  intro ps3 k
  exact collide_pair_length ps3 j k

theorem world_update_counts (w : world_impl) :
    (world_update w).spawn_tic =
      (if w.spawn_tic = 1 then SPAWN_INTERVAL else w.spawn_tic - 1) ∧
    (world_update w).pieces.length =
      (if w.spawn_tic = 1 then w.pieces.length + 1 else w.pieces.length) := by
  have hstep : ∀ (ps2 : List piece) (n : Nat),
      (collide_all (ps2.map (fun p => p.check_constraints w.width w.height))).length =
        ps2.length := by
    intro ps2 _
    rw [collide_all_length, List.length_map]
  have hlen : (if w.pieces = [] then w.pieces
      else (List.range NUM_ITERATIONS).foldl
        (fun ps2 _ => collide_all (ps2.map (fun p => p.check_constraints w.width w.height)))
        (w.pieces.map piece.update_positions)).length = w.pieces.length := by
    split_ifs with he
    · rfl
    · rw [foldl_length_inv _ hstep _ _, List.length_map]
  by_cases h1 : w.spawn_tic = 1
  · have h0 : w.spawn_tic - 1 = 0 := by omega
    constructor
    · simp [world_update, h0, h1]
    · simp [world_update, h0, h1, hlen]
  · have h0 : ¬(w.spawn_tic - 1 = 0) := by omega
    constructor
    · simp [world_update, h0, h1]
    · simp [world_update, h0, h1, hlen]

theorem run_countdown : ∀ (n : Nat) (w : world_impl), w.spawn_tic = (n : Int) + 1 →
    (world_update^[n] w).spawn_tic = 1 ∧
    (world_update^[n] w).pieces.length = w.pieces.length := by
  intro n
  induction n with
  | zero =>
    intro w h
    exact ⟨by simpa using h, rfl⟩
  | succ m ih =>
    intro w h
    have hne : ¬ w.spawn_tic = 1 := by
      rw [h]
      intro hcontra
      omega
    have hc := world_update_counts w
    rw [Function.iterate_succ_apply]
    have htic : (world_update w).spawn_tic = (m : Int) + 1 := by
      rw [hc.1, if_neg hne, h]
      push_cast
      ring
    obtain ⟨ha, hb⟩ := ih (world_update w) htic
    refine ⟨ha, ?_⟩
    rw [hb, hc.2, if_neg hne]

theorem thirty_cycle (w : world_impl) (h : w.spawn_tic = 30) :
    (world_update^[30] w).spawn_tic = 30 ∧
    (world_update^[30] w).pieces.length = w.pieces.length + 1 := by
  have h29 := run_countdown 29 w (by rw [h]; norm_num)
  have h30 : world_update^[30] w = world_update (world_update^[29] w) := by
    rw [← Function.iterate_succ_apply' world_update 29 w]
  have hc := world_update_counts (world_update^[29] w)
  constructor
  · rw [h30, hc.1, if_pos h29.1]
    rfl
  · rw [h30, hc.2, if_pos h29.1, h29.2]

/-- C6: each update decrements the spawn countdown once, and exactly when
it reaches zero appends exactly one new piece and resets the countdown to
30; a fresh world has countdown 30 and no pieces, so after exactly 30
updates one piece exists and after exactly 60 updates two exist, for every
width, height and random stream. -/
theorem world_spawn_cadence (width height : Int) (r : Nat → Nat) (w : world_impl) :
    ((world_update w).spawn_tic =
      if w.spawn_tic = 1 then 30 else w.spawn_tic - 1) ∧
    ((world_update w).pieces.length =
      if w.spawn_tic = 1 then w.pieces.length + 1 else w.pieces.length) ∧
    (world_new width height r).pieces.length = 0 ∧
    (world_new width height r).spawn_tic = 30 ∧
    (world_update^[30] (world_new width height r)).pieces.length = 1 ∧
    (world_update^[60] (world_new width height r)).pieces.length = 2 := by
  have hc := world_update_counts w
  have h30 := thirty_cycle (world_new width height r) rfl
  have h60 := thirty_cycle (world_update^[30] (world_new width height r)) h30.1
  have hiter : world_update^[60] (world_new width height r) =
      world_update^[30] (world_update^[30] (world_new width height r)) := by
    rw [show (60 : Nat) = 30 + 30 by norm_num]
    exact Function.iterate_add_apply world_update 30 30 (world_new width height r)
  refine ⟨?_, hc.2, rfl, rfl, ?_, ?_⟩
  · rw [hc.1]
    rfl
  · rw [h30.2]
    rfl
  · rw [hiter, h60.2, h30.2]
    rfl

theorem writeb_frame (s : store) (i : Nat) (b : body) (j : Nat) (h : j ≠ i) :
    writeb s i b j = s j := by
  simp [writeb, h]

theorem foldl_store_frame {α : Type _} (j : Nat) :
    ∀ (l : List α) (step : store → α → store) (s : store),
    (∀ s2 a, a ∈ l → step s2 a j = s2 j) → (l.foldl step s) j = s j := by
  intro l
  induction l with
  | nil =>
    intro step s _
    rfl
  | cons a rest ih =>
    intro step s h
    rw [List.foldl_cons,
      ih step _ (fun s2 a2 ha2 => h s2 a2 (List.mem_cons_of_mem _ ha2))]
    exact h s a (List.mem_cons_self _ _)

theorem update_positions_h_frame (base : Nat) (s : store) (p : pieceH) (j : Nat)
    (hp : piece_above base p) (hj : j < base) :
    update_positions_h s p j = s j := by
  unfold update_positions_h
  refine foldl_store_frame j p.body_ids _ s ?_
  intro s2 i hi
  exact writeb_frame s2 i _ j (by have := hp.1 i hi; omega)

theorem apply_spring_h_frame (base : Nat) (s : store) (sp : spring) (j : Nat)
    (h0 : base ≤ sp.i0) (h1 : base ≤ sp.i1) (hj : j < base) :
    apply_spring_h s sp j = s j := by
  simp only [apply_spring_h]
  rw [writeb_frame _ _ _ _ (by omega), writeb_frame _ _ _ _ (by omega)]

theorem check_constraints_h_frame (base : Nat) (s : store) (p : pieceH) (w : Int)
    (j : Nat) (hp : piece_above base p) (hj : j < base) :
    check_constraints_h s p w j = s j := by
  simp only [check_constraints_h]
  rw [foldl_store_frame j p.body_ids _ _
    (fun s2 i hi => writeb_frame s2 i _ j (by have := hp.1 i hi; omega))]
  exact foldl_store_frame j p.springs _ s
    (fun s2 sp hsp => apply_spring_h_frame base s2 sp j
      (hp.2.1 sp hsp).1 (hp.2.1 sp hsp).2 hj)

theorem move_h_frame (base : Nat) (s : store) (p : pieceH) (v : vec2) (j : Nat)
    (hp : piece_above base p) (hj : j < base) :
    move_h s p v j = s j := by
  unfold move_h
  refine foldl_store_frame j p.body_ids _ s ?_
  intro s2 i hi
  exact writeb_frame s2 i _ j (by have := hp.1 i hi; omega)

theorem push_quad_h_frame (base : Nat) (s : store) (q : quadref) (pv : vec2)
    (sign : ℝ) (j : Nat)
    (hq : base ≤ q.i0 ∧ base ≤ q.i1 ∧ base ≤ q.i2 ∧ base ≤ q.i3) (hj : j < base) :
    push_quad_h s q pv sign j = s j := by
  simp only [push_quad_h, set_position_h]
  rw [writeb_frame _ _ _ _ (by omega), writeb_frame _ _ _ _ (by omega),
    writeb_frame _ _ _ _ (by omega), writeb_frame _ _ _ _ (by omega)]

theorem collide_quads_h_frame (base : Nat) (s : store) (q0 q1 : quadref) (j : Nat)
    (hq0 : base ≤ q0.i0 ∧ base ≤ q0.i1 ∧ base ≤ q0.i2 ∧ base ≤ q0.i3)
    (hq1 : base ≤ q1.i0 ∧ base ≤ q1.i1 ∧ base ≤ q1.i2 ∧ base ≤ q1.i3)
    (hj : j < base) :
    collide_quads_h s q0 q1 j = s j := by
  unfold collide_quads_h
  cases hscan : quad_collision_scan (quad_corners_h s q0) (quad_corners_h s q1) with
  | none => rfl
  | some pv =>
    dsimp only
    rw [push_quad_h_frame base _ q1 pv 1 j hq1 hj,
      push_quad_h_frame base s q0 pv (-1) j hq0 hj]

theorem collide_h_frame (base : Nat) (s : store) (a b : pieceH) (j : Nat)
    (ha : piece_above base a) (hb : piece_above base b) (hj : j < base) :
    collide_h s a b j = s j := by
  unfold collide_h
  refine foldl_store_frame j a.quads _ s ?_
  intro s2 q0 hq0
  refine foldl_store_frame j b.quads _ s2 ?_
  intro s3 q1 hq1
  exact collide_quads_h_frame base s3 q0 q1 j (ha.2.2 q0 hq0) (hb.2.2 q1 hq1) hj

theorem run_op_frame (base : Nat) (s : store) (op2 : phys_op) (j : Nat)
    (hop : op_above base op2) (hj : j < base) : run_op s op2 j = s j := by
  cases op2 with
  | upd p => exact update_positions_h_frame base s p j hop hj
  | constr p w => exact check_constraints_h_frame base s p w j hop hj
  | mv p v => exact move_h_frame base s p v j hop hj
  | coll a b => exact collide_h_frame base s a b j hop.1 hop.2 hj

/-- C10: make_piece's deep copy rebinds every spring and quad of the copy,
through the position-to-index map over the prototype's bodies, to the
copy's freshly allocated bodies (all at id base or above); consequently any
sequence of physics operations touching only pieces whose ids lie at or
above base — in particular such copies — leaves every store cell below
base, and hence every body of the prototype, unchanged (the prototype's
spring and quad lists are plain data the operations never modify). -/
theorem make_piece_deep_copy_frame (base : Nat) (s : store) (ops : List phys_op)
    (proto : pieceH)
    (hops : ∀ op2 ∈ ops, op_above base op2)
    (hproto : ∀ i ∈ proto.body_ids, i < base) :
    piece_above base (copy_piece_ids proto base) ∧
    (∀ j, j < base → run_ops s ops j = s j) ∧
    (∀ i ∈ proto.body_ids, run_ops s ops i = s i) := by
  have hframe : ∀ j, j < base → run_ops s ops j = s j := by
    intro j hj
    unfold run_ops
    refine foldl_store_frame j ops run_op s ?_
    intro s2 o ho
    exact run_op_frame base s2 o j (hops o ho) hj
  refine ⟨⟨?_, ?_, ?_⟩, hframe, fun i hi => hframe i (hproto i hi)⟩
  · intro i hi
    simp only [copy_piece_ids, List.mem_map, List.mem_range] at hi
    obtain ⟨n, _, rfl⟩ := hi
    omega
  · intro sp hsp
    simp only [copy_piece_ids, List.mem_map] at hsp
    obtain ⟨sp0, _, rfl⟩ := hsp
    exact ⟨Nat.le_add_right _ _, Nat.le_add_right _ _⟩
  · intro q hq
    simp only [copy_piece_ids, List.mem_map] at hq
    obtain ⟨q0, _, rfl⟩ := hq
    exact ⟨Nat.le_add_right _ _, Nat.le_add_right _ _,
      Nat.le_add_right _ _, Nat.le_add_right _ _⟩

theorem make_piece_deep_copy_frame_witness :
    piece_above 2 (copy_piece_ids ⟨[0, 1], [⟨0, 1, 20⟩], [⟨0, 1, 1, 0⟩]⟩ 2) ∧
    (∀ j, j < 2 → run_ops (fun _ => default)
      [phys_op.mv ⟨[2, 3], [⟨2, 3, 20⟩], [⟨2, 3, 3, 2⟩]⟩ ⟨1, 1⟩] j =
      (fun _ => default : store) j) ∧
    (∀ i ∈ ([0, 1] : List Nat), run_ops (fun _ => default)
      [phys_op.mv ⟨[2, 3], [⟨2, 3, 20⟩], [⟨2, 3, 3, 2⟩]⟩ ⟨1, 1⟩] i =
      (fun _ => default : store) i) :=
  make_piece_deep_copy_frame 2 (fun _ => default)
    [phys_op.mv ⟨[2, 3], [⟨2, 3, 20⟩], [⟨2, 3, 3, 2⟩]⟩ ⟨1, 1⟩]
    ⟨[0, 1], [⟨0, 1, 20⟩], [⟨0, 1, 1, 0⟩]⟩
    (by
      intro op2 hop2
      simp only [List.mem_singleton] at hop2
      subst hop2
      refine ⟨?_, ?_, ?_⟩
      · intro i hi
        simp at hi
        rcases hi with rfl | rfl <;> norm_num
      · intro sp hsp
        simp at hsp
        subst hsp
        exact ⟨by norm_num, by norm_num⟩
      · intro q hq
        simp at hq
        subst hq
        exact ⟨by norm_num, by norm_num, by norm_num, by norm_num⟩)
    (by
      intro i hi
      simp at hi
      rcases hi with rfl | rfl <;> norm_num)
